import Mathlib

/-!
Shallow embedding of the Krist ledger's legacy address routes
(`src/routes/addresses.js`), the detailed work route (`GET /work/detailed`),
and the websocket `logout` handler (`src/websocket_routes/logout.js`).

JavaScript numbers that hold balances, transaction values and block counts are
modelled as `Nat` (the ledger only ever stores non-negative integral amounts
and none of the verified routes perform arithmetic that could overflow a
double).  Timestamps are opaque here: the `moment(..).format(..)` calls are
external library collaborators and are passed in as abstract formatting
functions.  Nullable JavaScript strings become `Option String`.
-/

/-- An address record as stored by the ledger: canonical identifier, balance,
running totals, first-seen timestamp and the optional operator alert. -/
structure Address where
  address : String
  balance : Nat
  totalin : Nat
  totalout : Nat
  firstseen : Int
  alert : Option String
deriving DecidableEq, Repr

/-- The explicit transaction `type` tag assigned at commit time. -/
inductive TxType where
  | mined
  | transfer
  | name_purchase
  | name_transfer
  | name_a_record
deriving DecidableEq, Repr

/-- A committed transaction record.  `from` is `none` for mined blocks; `to`
may hold a name marker shorter than an address. -/
structure Transaction where
  id : Nat
  «from» : Option String
  «to» : Option String
  value : Nat
  time : Int
  type : TxType
deriving DecidableEq, Repr

/-- Modelled from the spec: `utils.padDigits` (utils.js is not under src/).
The spec describes its use as an "8-digit zero-padded value": the decimal
rendering of `n` is padded on the left with zeros up to `d` digits, longer
renderings are kept as they are. -/
def padDigits (n d : Nat) : String :=
  let s := Nat.repr n
  String.mk (List.replicate (d - s.length) '0') ++ s

/-- Modelled from the spec: `addresses.getAddress` (addresses.js is not under
src/) resolves an identifier to the stored address record or to nothing.  The
backing store is abstracted as the lookup function itself. -/
def AddressStore : Type := String → Option Address

/-- The `getbalance` legacy branch of `GET /`: a known address answers with
its balance rendered as a bare decimal string, an unknown address answers
with the string "0". -/
def getbalanceResponse (store : AddressStore) (q : String) : String :=
  match store q with
  | some address => Nat.repr address.balance
  | none => "0"

/-- Concatenation of one rendered record per row, with no delimiter: the
specification-side description of the legacy fixed-width outputs. -/
def concatRecords {α : Type} (f : α → String) (l : List α) : String :=
  (l.map f).foldr (fun a b => a ++ b) ""

/-- One record of the `richapi` legacy branch: the first 10 characters of the
address (substr(0,10)), the balance zero-padded to 8 digits, and the
firstseen date rendered by the external formatter (format "DD MMM YYYY"). -/
def richapiRecord (fmtDate : Int → String) (address : Address) : String :=
  address.address.take 10 ++ padDigits address.balance 8 ++ fmtDate address.firstseen

/-- The `richapi` legacy branch of `GET /`: the records of the rich rows are
accumulated into one output string with `out += ...` per row. -/
def richapiResponse (fmtDate : Int → String) (rows : List Address) : String :=
  rows.foldl (fun out address => out ++ richapiRecord fmtDate address) ""

/-- The JavaScript truthiness-and-length test `!s || s.length < 10` used by
the legacy listtx branch on the `from` and `to` fields. -/
def shortOrMissing : Option String → Bool
  | none => true
  | some s => decide (s.length < 10)

/-- The peer/sign selection of the legacy listtx branch, in source order: the
equality checks against the queried address pick a provisional peer and the
sign, then a missing-or-short `from` overwrites the peer with "N/A(Mined)",
then a missing-or-short `to` overwrites it with "N/A(Names)".  A `null` field
copied into the peer is always overwritten by one of the two shape checks, so
the placeholder string used by `getD` is never rendered. -/
def legacyPeerSign (addr : String) (t : Transaction) : String × String :=
  let ps : String × String :=
    if t.«to» = some addr then (t.«from».getD "null", "+")
    else if t.«from» = some addr then (t.«to».getD "null", "-")
    else ("", "")
  let peer := if shortOrMissing t.«from» then "N/A(Mined)" else ps.1
  let peer := if shortOrMissing t.«to» then "N/A(Names)" else peer
  (peer, ps.2)

/-- The counterpart rendered by the legacy listtx branch. -/
def legacyPeer (addr : String) (t : Transaction) : String :=
  (legacyPeerSign addr t).1

/-- The credit/debit sign rendered by the legacy listtx branch. -/
def legacySign (addr : String) (t : Transaction) : String :=
  (legacyPeerSign addr t).2

/-- One record of the legacy listtx branch: formatted time (format
"MMM DD HH:mm"), peer, sign, 8-digit zero-padded value, and, when the `id`
query parameter is present, the 8-digit zero-padded transaction id. -/
def listtxRecord (fmtTime : Int → String) (wantId : Bool) (addr : String)
    (t : Transaction) : String :=
  fmtTime t.time ++ legacyPeer addr t ++ legacySign addr t ++ padDigits t.value 8 ++
    (if wantId then padDigits t.id 8 else "")

/-- Descending order on transaction ids, the sort key of `listByAddress`
(most recent first). -/
def descId (a b : Transaction) : Prop := b.id ≤ a.id

instance : DecidableRel descId := fun a b => Nat.decLe b.id a.id

instance : IsTotal Transaction descId := ⟨fun a b => Nat.le_total b.id a.id⟩

instance : IsTrans Transaction descId := ⟨fun _ _ _ hab hbc => Nat.le_trans hbc hab⟩

/-- Modelled from the spec: `transactions.getTransactionsByAddress`
(transactions.js and its controller are not under src/).  Per spec section
4.2, `listByAddress` returns the rows involving the address ordered by id
descending, excludes rows whose type is mined when `includeMined` is false,
and applies offset and limit. -/
def getTransactionsByAddress (txs : List Transaction) (addr : String)
    (limit offset : Nat) (includeMined : Bool) : List Transaction :=
  let involved := txs.filter (fun t => t.«from» == some addr || t.«to» == some addr)
  let filtered := if includeMined then involved
    else involved.filter (fun t => !(t.type == TxType.mined))
  let sorted := List.insertionSort descId filtered
  (sorted.drop offset).take limit

/-- The `listtx` legacy branch of `GET /`: an unknown address answers with the
literal "Error4"; a known address fetches its transactions (limit 3 when the
`overview` query parameter is present, 500 otherwise, offset 0, mined rows
included), renders one record per row into the accumulator, and terminates
the output with the literal sentinel "end". -/
def listtxResponse (fmtTime : Int → String) (store : AddressStore)
    (txs : List Transaction) (q : String) (overview wantId : Bool) : String :=
  match store q with
  | some address =>
    let results := getTransactionsByAddress txs address.address
      (if overview then 3 else 500) 0 true
    (results.foldl (fun out t => out ++ listtxRecord fmtTime wantId address.address t) "")
      ++ "end"
  | none => "Error4"

/-- `GET /addresses/:address/transactions`: the route passes
`typeof req.query.excludeMined === "undefined"` as the `includeMined`
argument, so mined rows are included exactly when the `excludeMined` query
parameter is absent. -/
def addressTransactionsRows (txs : List Transaction) (addr : String)
    (limit offset : Nat) (excludeMinedPresent : Bool) : List Transaction :=
  getTransactionsByAddress txs addr limit offset (!excludeMinedPresent)

/-- One aggregated row of `names.getDetailedUnpaid`: the distinct countdown
value and how many names currently carry it. -/
structure UnpaidGroup where
  unpaid : Nat
  count : Nat
deriving DecidableEq, Repr

/-- Modelled from the spec: `names.getDetailedUnpaid` (names.js is not under
src/) returns one aggregated group per distinct countdown value.  Spec
section 4.4 leaves the order abstract but requires it to support the
min-derivation performed by the caller's first-match scan, so the groups are
required to arrive in ascending countdown order; distinctness of the
countdown values makes that order strict. -/
def DetailedUnpaidWF (l : List UnpaidGroup) : Prop :=
  l.Pairwise (fun a b => a.unpaid < b.unpaid)

/-- The decrease object of `GET /work/detailed`. -/
structure Decrease where
  value : Nat
  blocks : Nat
  reset : Nat
deriving DecidableEq, Repr

/-- Descending order on group countdowns, the sort key of the `mostUnpaid`
copy (comparator b.unpaid - a.unpaid). -/
def descUnpaid (a b : UnpaidGroup) : Prop := b.unpaid ≤ a.unpaid

instance : DecidableRel descUnpaid := fun a b => Nat.decLe b.unpaid a.unpaid

instance : IsTotal UnpaidGroup descUnpaid := ⟨fun a b => Nat.le_total b.unpaid a.unpaid⟩

instance : IsTrans UnpaidGroup descUnpaid := ⟨fun _ _ _ hab hbc => Nat.le_trans hbc hab⟩

/-- The decrease computation of `GET /work/detailed`: `nextUnpaid` is the
first group with a positive countdown, `mostUnpaid` is a copy of the positive
groups sorted by countdown descending; `value` and `blocks` come from
`nextUnpaid` (0 when there is none), `reset` from the head of `mostUnpaid`
(0 when it is empty). -/
def workDetailedDecrease (detailedUnpaid : List UnpaidGroup) : Decrease :=
  let nextUnpaid := detailedUnpaid.find? (fun u => decide (u.unpaid > 0))
  let mostUnpaid := List.insertionSort descUnpaid
    (detailedUnpaid.filter (fun u => decide (u.unpaid > 0)))
  { value := match nextUnpaid with | some u => u.count | none => 0
    blocks := match nextUnpaid with | some u => u.unpaid | none => 0
    reset := match mostUnpaid.head? with | some u => u.unpaid | none => 0 }

/-- The JSON body of `GET /work/detailed`. -/
structure WorkDetailedResponse where
  ok : Bool
  work : Nat
  unpaid : Nat
  base_value : Nat
  block_value : Nat
  decrease : Decrease
deriving DecidableEq, Repr

/-- The `GET /work/detailed` handler: `getWork`, the last block id, the base
block value schedule (`blocks.getBaseBlockValue`, an external step/halving
collaborator consumed here), the unpaid name count and the detailed unpaid
groups are all reads performed by the route; the body is assembled from
them, with `block_value` computed as `baseValue + unpaidNames`. -/
def workDetailedResponse (work lastBlockId : Nat) (getBaseBlockValue : Nat → Nat)
    (unpaidNames : Nat) (detailedUnpaid : List UnpaidGroup) : WorkDetailedResponse :=
  let baseValue := getBaseBlockValue lastBlockId
  { ok := true
    work := work
    unpaid := unpaidNames
    base_value := baseValue
    block_value := baseValue + unpaidNames
    decrease := workDetailedDecrease detailedUnpaid }

/-- The per-connection session state touched by the logout handler: the
`auth` tag (an address or "guest") and the `isGuest` flag. -/
structure WsSession where
  auth : String
  isGuest : Bool
deriving DecidableEq, Repr

/-- The guest session state. -/
def guestSession : WsSession := { auth := "guest", isGuest := true }

/-- The reply sent by the logout handler. -/
structure LogoutResult where
  ok : Bool
  isGuest : Bool
deriving DecidableEq, Repr

/-- The websocket `logout` message handler: it sets `ws.auth` to "guest" and
`ws.isGuest` to true, then returns the ok/isGuest reply (the log line it also
prints is outside the model). -/
def logoutHandler (ws : WsSession) : WsSession × LogoutResult :=
  let ws := { ws with auth := "guest", isGuest := true }
  (ws, { ok := true, isGuest := true })

/-- A one-address sample store used to exercise the legacy branches. -/
def sampleStore : AddressStore := fun q =>
  if q = "kaaaaaaaaa" then some ⟨"kaaaaaaaaa", 125, 125, 0, 0, none⟩ else none

/-- A sample transaction log holding a transfer and a mined block reward for
the sample address. -/
def sampleTxs : List Transaction :=
  [⟨1, some "kbbbbbbbbb", some "kaaaaaaaaa", 25, 0, TxType.transfer⟩,
   ⟨2, none, some "kaaaaaaaaa", 25, 0, TxType.mined⟩]

/-- A sample transaction log with four transfers to the sample address. -/
def sampleTxs4 : List Transaction :=
  [⟨1, some "kbbbbbbbbb", some "kaaaaaaaaa", 1, 0, TxType.transfer⟩,
   ⟨2, some "kbbbbbbbbb", some "kaaaaaaaaa", 2, 0, TxType.transfer⟩,
   ⟨3, some "kbbbbbbbbb", some "kaaaaaaaaa", 3, 0, TxType.transfer⟩,
   ⟨4, some "kbbbbbbbbb", some "kaaaaaaaaa", 4, 0, TxType.transfer⟩]

/-! ### Helper lemmas -/

/-- A first-match scan is the head of the filtered list. -/
lemma find?_eq_head_filter {α : Type} (p : α → Bool) (l : List α) :
    l.find? p = (l.filter p).head? := by
  induction l with
  | nil => rfl
  | cons h t ih =>
    by_cases hp : p h
    · rw [List.find?_cons_of_pos _ hp, List.filter_cons_of_pos hp, List.head?_cons]
    · rw [List.find?_cons_of_neg _ hp, List.filter_cons_of_neg hp, ih]

/-- Accumulating `out ++ f x` over a list appends the delimiter-free
concatenation of the rendered records to the initial accumulator. -/
lemma foldl_append_eq_concatRecords {α : Type} (f : α → String) (l : List α)
    (init : String) :
    l.foldl (fun out x => out ++ f x) init = init ++ concatRecords f l := by
  induction l generalizing init with
  | nil => simp [concatRecords]
  | cons h t ih =>
    simp only [List.foldl_cons, ih, concatRecords, List.map_cons, List.foldr_cons]
    rw [String.append_assoc]

/-- The head of a list sorted descending by `descUnpaid` is a maximum of the
original list. -/
lemma insertionSort_desc_head_max {l : List UnpaidGroup} (hne : l ≠ []) :
    ∃ g, (List.insertionSort descUnpaid l).head? = some g ∧ g ∈ l ∧
      ∀ x ∈ l, x.unpaid ≤ g.unpaid := by
  have hperm := List.perm_insertionSort descUnpaid l
  have hsorted := List.sorted_insertionSort descUnpaid l
  have hne2 : List.insertionSort descUnpaid l ≠ [] := by
    intro h0
    exact hne (List.Perm.eq_nil (h0 ▸ hperm.symm))
  obtain ⟨g, rest, heq⟩ := List.exists_cons_of_ne_nil hne2
  refine ⟨g, by simp [heq], ?_, ?_⟩
  · exact hperm.mem_iff.mp (by simp [heq])
  · intro x hx
    have hx2 : x ∈ List.insertionSort descUnpaid l := hperm.mem_iff.mpr hx
    rw [heq] at hx2 hsorted
    rcases List.mem_cons.mp hx2 with hxg | hxrest
    · exact Nat.le_of_eq (congrArg UnpaidGroup.unpaid hxg)
    · exact (List.pairwise_cons.mp hsorted).1 x hxrest

/-- Membership in a limit/offset window of a sorted list implies membership
in the original list. -/
lemma mem_of_window_sort {α : Type} (r : α → α → Prop) [DecidableRel r]
    {l : List α} {x : α} {off lim : Nat}
    (h : x ∈ ((List.insertionSort r l).drop off).take lim) : x ∈ l := by
  have h1 : x ∈ (List.insertionSort r l).drop off := List.mem_of_mem_take h
  have h2 : x ∈ List.insertionSort r l := List.mem_of_mem_drop h1
  exact (List.perm_insertionSort r l).mem_iff.mp h2

/-! ### Claims -/

/-- Claim C2: the `block_value` reported by the detailed-work query equals the
base block value for the last block's id plus the current count of unpaid
names. -/
theorem workDetailed_blockValue (work lastBlockId : Nat)
    (getBaseBlockValue : Nat → Nat) (unpaidNames : Nat)
    (detailedUnpaid : List UnpaidGroup) :
    (workDetailedResponse work lastBlockId getBaseBlockValue unpaidNames
        detailedUnpaid).block_value =
      getBaseBlockValue lastBlockId + unpaidNames := rfl

/-- Claim C3: processing a `logout` message in any prior session state leaves
the session in the guest state and returns the ok/isGuest reply; the
operation is idempotent and logging out a guest succeeds identically. -/
theorem logoutHandler_always_guest (ws : WsSession) :
    (logoutHandler ws).1 = guestSession ∧
    (logoutHandler ws).2 = { ok := true, isGuest := true } ∧
    logoutHandler (logoutHandler ws).1 = logoutHandler ws ∧
    logoutHandler guestSession = (guestSession, { ok := true, isGuest := true }) :=
  ⟨rfl, rfl, rfl, rfl⟩

/-- Claim C4: the legacy `getbalance` branch renders a known address's balance
as a bare decimal string and answers exactly "0" for an unknown address. -/
theorem getbalanceResponse_spec (store : AddressStore) (q : String) :
    (∀ a, store q = some a → getbalanceResponse store q = Nat.repr a.balance) ∧
    (store q = none → getbalanceResponse store q = "0") := by
  constructor
  · intro a ha
    simp [getbalanceResponse, ha]
  · intro ha
    simp [getbalanceResponse, ha]

/-- Witness for claim C4 at a concrete one-address store: the known address
answers its balance in decimal, the unknown one answers "0". -/
theorem getbalanceResponse_spec_witness :
    getbalanceResponse
        (fun q => if q = "kaaaaaaaaa" then some ⟨"kaaaaaaaaa", 125, 125, 0, 0, none⟩
          else none) "kaaaaaaaaa" = "125" ∧
    getbalanceResponse
        (fun q => if q = "kaaaaaaaaa" then some ⟨"kaaaaaaaaa", 125, 125, 0, 0, none⟩
          else none) "kzzzzzzzzz" = "0" := by
  constructor
  · have h := (getbalanceResponse_spec
      (fun q => if q = "kaaaaaaaaa" then some ⟨"kaaaaaaaaa", 125, 125, 0, 0, none⟩
        else none) "kaaaaaaaaa").1 ⟨"kaaaaaaaaa", 125, 125, 0, 0, none⟩ (by decide)
    exact h.trans (by decide)
  · exact (getbalanceResponse_spec
      (fun q => if q = "kaaaaaaaaa" then some ⟨"kaaaaaaaaa", 125, 125, 0, 0, none⟩
        else none) "kzzzzzzzzz").2 (by decide)

/-- Claim C6: the legacy `richapi` branch returns the delimiter-free
concatenation of one fixed-width record per rich row: the first 10 characters
of the address, the balance zero-padded to 8 digits, and the formatted
firstseen date. -/
theorem richapiResponse_spec (fmtDate : Int → String) (rows : List Address) :
    richapiResponse fmtDate rows =
      concatRecords
        (fun a => a.address.take 10 ++ padDigits a.balance 8 ++ fmtDate a.firstseen)
        rows := by
  unfold richapiResponse
  rw [foldl_append_eq_concatRecords]
  rfl

/-- Claim C1: for well-formed unpaid groups, if no group has a positive
countdown the decrease object is all zeroes; otherwise `value` and `blocks`
are the count and countdown of the single group carrying the minimum positive
countdown, and `reset` is the maximum countdown present. -/
theorem workDetailedDecrease_spec (l : List UnpaidGroup) (hwf : DetailedUnpaidWF l) :
    (l.filter (fun u => decide (u.unpaid > 0)) = [] →
      workDetailedDecrease l = { value := 0, blocks := 0, reset := 0 }) ∧
    (∀ g ∈ l.filter (fun u => decide (u.unpaid > 0)),
      (∀ g2 ∈ l.filter (fun u => decide (u.unpaid > 0)), g.unpaid ≤ g2.unpaid) →
      (workDetailedDecrease l).value = g.count ∧
      (workDetailedDecrease l).blocks = g.unpaid) ∧
    (∀ g ∈ l.filter (fun u => decide (u.unpaid > 0)),
      (∀ g2 ∈ l.filter (fun u => decide (u.unpaid > 0)), g2.unpaid ≤ g.unpaid) →
      (workDetailedDecrease l).reset = g.unpaid) := by
  refine ⟨?_, ?_, ?_⟩
  · intro hnil
    have hfind := find?_eq_head_filter (fun u => decide (u.unpaid > 0)) l
    rw [hnil] at hfind
    simp [workDetailedDecrease, hfind, hnil, List.insertionSort]
  · intro g hg hmin
    have hPD : (l.filter (fun u => decide (u.unpaid > 0))).Pairwise
        (fun a b => a.unpaid < b.unpaid) :=
      List.Pairwise.sublist (List.filter_sublist l) hwf
    have hfind := find?_eq_head_filter (fun u => decide (u.unpaid > 0)) l
    cases hD : l.filter (fun u => decide (u.unpaid > 0)) with
    | nil => rw [hD] at hg; exact absurd hg (List.not_mem_nil g)
    | cons d rest =>
      rw [hD] at hfind hg hmin hPD
      have hgd : g = d := by
        rcases List.mem_cons.mp hg with h1 | h2
        · exact h1
        · have hlt : d.unpaid < g.unpaid := (List.pairwise_cons.mp hPD).1 g h2
          have hle : g.unpaid ≤ d.unpaid := hmin d (List.mem_cons_self d rest)
          exact absurd (Nat.lt_of_le_of_lt hle hlt) (Nat.lt_irrefl _)
      subst hgd
      constructor
      · simp [workDetailedDecrease, hfind]
      · simp [workDetailedDecrease, hfind]
  · intro g hg hmax
    have hne : l.filter (fun u => decide (u.unpaid > 0)) ≠ [] := by
      intro h0
      rw [h0] at hg
      exact (List.not_mem_nil g) hg
    obtain ⟨m, hhead, hmem, hbound⟩ := insertionSort_desc_head_max hne
    have hmg : m.unpaid = g.unpaid := Nat.le_antisymm (hmax m hmem) (hbound g hg)
    simp [workDetailedDecrease, hhead, hmg]

/-- Witness for claim C1 at the spec's own example: groups with countdowns 5
(count 2) and 20 (count 1) yield value 2, blocks 5, reset 20. -/
theorem workDetailedDecrease_spec_witness :
    DetailedUnpaidWF [⟨5, 2⟩, ⟨20, 1⟩] ∧
    (workDetailedDecrease [⟨5, 2⟩, ⟨20, 1⟩]).value = 2 ∧
    (workDetailedDecrease [⟨5, 2⟩, ⟨20, 1⟩]).blocks = 5 ∧
    (workDetailedDecrease [⟨5, 2⟩, ⟨20, 1⟩]).reset = 20 := by
  have h := workDetailedDecrease_spec [⟨5, 2⟩, ⟨20, 1⟩]
    (List.Pairwise.cons (by decide) (List.Pairwise.cons (by decide) List.Pairwise.nil))
  have hv := h.2.1 ⟨5, 2⟩ (by decide) (by decide)
  have hr := h.2.2 ⟨20, 1⟩ (by decide) (by decide)
  exact ⟨List.Pairwise.cons (by decide) (List.Pairwise.cons (by decide) List.Pairwise.nil),
    hv.1, hv.2, hr⟩

/-- Claim C5: the legacy `listtx` branch answers exactly "Error4" for an
unknown address; for a known address it answers the delimiter-free
concatenation of one record per transaction (formatted timestamp, counterpart
peer or sentinel, credit/debit sign, 8-digit zero-padded value, and, when the
`id` query parameter is present, the 8-digit zero-padded transaction id),
terminated by the literal sentinel "end"; every rendered sign is "+" or "-". -/
theorem listtxResponse_spec (fmtTime : Int → String) (store : AddressStore)
    (txs : List Transaction) (q : String) (overview wantId : Bool) :
    (store q = none → listtxResponse fmtTime store txs q overview wantId = "Error4") ∧
    (∀ a, store q = some a →
      listtxResponse fmtTime store txs q overview wantId =
        concatRecords
          (fun t => fmtTime t.time ++ legacyPeer a.address t ++ legacySign a.address t ++
            padDigits t.value 8 ++ (if wantId then padDigits t.id 8 else ""))
          (getTransactionsByAddress txs a.address (if overview then 3 else 500) 0 true)
          ++ "end" ∧
      (∀ t ∈ getTransactionsByAddress txs a.address (if overview then 3 else 500) 0 true,
        legacySign a.address t = "+" ∨ legacySign a.address t = "-")) := by
  constructor
  · intro h
    simp [listtxResponse, h]
  · intro a ha
    constructor
    · simp only [listtxResponse, ha]
      rw [foldl_append_eq_concatRecords]
      rfl
    · intro t ht
      have ht2 : t ∈ ((List.insertionSort descId
          (txs.filter (fun t => t.«from» == some a.address || t.«to» == some a.address))).drop
            0).take (if overview then 3 else 500) := ht
      have ht3 := mem_of_window_sort descId ht2
      have hcond := (List.mem_filter.mp ht3).2
      by_cases hto : t.«to» = some a.address
      · left
        simp [legacySign, legacyPeerSign, hto]
      · right
        have hfrom : t.«from» = some a.address := by
          rcases Bool.or_eq_true_iff.mp hcond with h1 | h2
          · exact beq_iff_eq.mp h1
          · exact absurd (beq_iff_eq.mp h2) hto
        simp [legacySign, legacyPeerSign, hto, hfrom]

/-- Witness for claim C5: on the sample store, an unknown address yields
"Error4" and the known address yields the two fixed-width records (mined
reward first, ids requested) terminated by "end". -/
theorem listtxResponse_spec_witness :
    listtxResponse (fun _ => "TT") sampleStore sampleTxs "kzzzzzzzzz" false true = "Error4" ∧
    listtxResponse (fun _ => "TT") sampleStore sampleTxs "kaaaaaaaaa" false true =
      "TTN/A(Mined)+0000002500000002TTkbbbbbbbbb+0000002500000001end" := by
  constructor
  · exact (listtxResponse_spec (fun _ => "TT") sampleStore sampleTxs "kzzzzzzzzz"
      false true).1 (by decide)
  · have h := ((listtxResponse_spec (fun _ => "TT") sampleStore sampleTxs "kaaaaaaaaa"
      false true).2 ⟨"kaaaaaaaaa", 125, 125, 0, 0, none⟩ (by decide)).1
    exact h.trans (by decide)

/-- Claim C9: for a known address the legacy `listtx` branch always includes
mined transactions (no type filter is applied), fetches at offset 0 (no rows
are skipped), and takes exactly 3 rows when the `overview` query parameter is
present and exactly 500 otherwise. -/
theorem listtxFetch_spec (fmtTime : Int → String) (store : AddressStore)
    (txs : List Transaction) (q : String) (overview wantId : Bool) (a : Address)
    (ha : store q = some a) :
    listtxResponse fmtTime store txs q overview wantId =
      concatRecords (listtxRecord fmtTime wantId a.address)
        ((List.insertionSort descId
            (txs.filter (fun t => t.«from» == some a.address || t.«to» == some a.address))).take
          (if overview then 3 else 500)) ++ "end" := by
  simp only [listtxResponse, ha]
  rw [foldl_append_eq_concatRecords]
  rfl

/-- Witness for claim C9: with four transfers on file and `overview` present,
exactly the 3 most recent records are rendered; the mined reward in the other
sample log is rendered when `overview` is absent. -/
theorem listtxFetch_spec_witness :
    listtxResponse (fun _ => "TT") sampleStore sampleTxs4 "kaaaaaaaaa" true false =
      "TTkbbbbbbbbb+00000004TTkbbbbbbbbb+00000003TTkbbbbbbbbb+00000002end" ∧
    listtxResponse (fun _ => "TT") sampleStore sampleTxs "kaaaaaaaaa" false false =
      "TTN/A(Mined)+00000025TTkbbbbbbbbb+00000025end" := by
  constructor
  · exact (listtxFetch_spec (fun _ => "TT") sampleStore sampleTxs4 "kaaaaaaaaa"
      true false ⟨"kaaaaaaaaa", 125, 125, 0, 0, none⟩ (by decide)).trans (by decide)
  · exact (listtxFetch_spec (fun _ => "TT") sampleStore sampleTxs "kaaaaaaaaa"
      false false ⟨"kaaaaaaaaa", 125, 125, 0, 0, none⟩ (by decide)).trans (by decide)

/-- Claim C8: `GET /addresses/:address/transactions` excludes every mined
transaction exactly when the `excludeMined` query parameter is present, and
applies no type filter (mined rows included) when it is absent. -/
theorem addressTransactionsRows_spec (txs : List Transaction) (addr : String)
    (limit offset : Nat) (excludeMinedPresent : Bool) :
    (excludeMinedPresent = true →
      ∀ t ∈ addressTransactionsRows txs addr limit offset excludeMinedPresent,
        t.type ≠ TxType.mined) ∧
    (excludeMinedPresent = false →
      addressTransactionsRows txs addr limit offset excludeMinedPresent =
        ((List.insertionSort descId
            (txs.filter (fun t => t.«from» == some addr || t.«to» == some addr))).drop
          offset).take limit) := by
  constructor
  · intro hp t ht
    subst hp
    have ht2 : t ∈ ((List.insertionSort descId
        ((txs.filter (fun t => t.«from» == some addr || t.«to» == some addr)).filter
          (fun t => !(t.type == TxType.mined)))).drop offset).take limit := ht
    have ht3 := mem_of_window_sort descId ht2
    have hnm := (List.mem_filter.mp ht3).2
    intro heq
    rw [heq] at hnm
    simp at hnm
  · intro hp
    subst hp
    rfl

/-- Witness for claim C8: on the sample log, requesting with `excludeMined`
present leaves no mined row, and requesting without it returns both rows,
the mined reward included, most recent first. -/
theorem addressTransactionsRows_spec_witness :
    (∀ t ∈ addressTransactionsRows sampleTxs "kaaaaaaaaa" 500 0 true,
      t.type ≠ TxType.mined) ∧
    addressTransactionsRows sampleTxs "kaaaaaaaaa" 500 0 false =
      [⟨2, none, some "kaaaaaaaaa", 25, 0, TxType.mined⟩,
       ⟨1, some "kbbbbbbbbb", some "kaaaaaaaaa", 25, 0, TxType.transfer⟩] := by
  constructor
  · exact (addressTransactionsRows_spec sampleTxs "kaaaaaaaaa" 500 0 true).1 rfl
  · exact ((addressTransactionsRows_spec sampleTxs "kaaaaaaaaa" 500 0 false).2 rfl).trans
      (by decide)

/-- Counterexample to claim C7: two committed transfers that differ only in
the length of their `from` field render different counterparts in the legacy
line protocol, although their stored `type` tags are equal — the sentinel
choice does depend on the shape of the fields. -/
theorem legacyPeer_shape_counterexample :
    (⟨1, some "abc", some "kaaaaaaaaa", 25, 0, TxType.transfer⟩ : Transaction).type =
      (⟨2, some "kbbbbbbbbb", some "kaaaaaaaaa", 25, 0, TxType.transfer⟩ : Transaction).type ∧
    legacyPeer "kaaaaaaaaa" ⟨1, some "abc", some "kaaaaaaaaa", 25, 0, TxType.transfer⟩ =
      "N/A(Mined)" ∧
    legacyPeer "kaaaaaaaaa" ⟨2, some "kbbbbbbbbb", some "kaaaaaaaaa", 25, 0, TxType.transfer⟩ =
      "kbbbbbbbbb" := by
  decide

/-- Claim C7 as amended: in the legacy listtx rendering the counterpart
sentinel is re-derived from the shape of the fields — "N/A(Names)" whenever
`to` is missing or shorter than 10 characters, otherwise "N/A(Mined)"
whenever `from` is missing or shorter than 10 characters, otherwise the
counterpart picked by the equality checks — and the stored `type` tag is
never consulted by this selection. -/
theorem legacyPeer_shape_heuristic (addr : String) (t : Transaction) :
    legacyPeer addr t =
      (if shortOrMissing t.«to» then "N/A(Names)"
       else if shortOrMissing t.«from» then "N/A(Mined)"
       else if t.«to» = some addr then t.«from».getD "null"
       else if t.«from» = some addr then t.«to».getD "null"
       else "") ∧
    (∀ ty1 ty2 : TxType,
      legacyPeer addr { t with type := ty1 } = legacyPeer addr { t with type := ty2 }) := by
  constructor
  · unfold legacyPeer legacyPeerSign
    by_cases h1 : shortOrMissing t.«to» <;> by_cases h2 : shortOrMissing t.«from» <;>
      by_cases h3 : t.«to» = some addr <;> by_cases h4 : t.«from» = some addr <;>
      simp [h1, h2, h3, h4]
  · intro ty1 ty2
    rfl

/-- Claim C10: in the legacy listtx rendering, a missing-or-short `to` always
renders the counterpart "N/A(Names)" (the check runs last, so it wins over
"N/A(Mined)"), and a transaction credited to the queried address always
renders the sign "+". -/
theorem listtxPeer_precedence (addr : String) (t : Transaction) :
    (shortOrMissing t.«to» = true → legacyPeer addr t = "N/A(Names)") ∧
    (t.«to» = some addr → legacySign addr t = "+") := by
  constructor
  · intro h
    simp [legacyPeer, legacyPeerSign, h]
  · intro h
    simp [legacySign, legacyPeerSign, h]

/-- Witness for claim C10: a name transaction with both fields missing
renders "N/A(Names)" (not "N/A(Mined)"), and a mined reward credited to the
sample address renders the sign "+" while its counterpart is the mined
sentinel. -/
theorem listtxPeer_precedence_witness :
    legacyPeer "kaaaaaaaaa" ⟨1, none, none, 25, 0, TxType.name_purchase⟩ = "N/A(Names)" ∧
    legacySign "kaaaaaaaaa" ⟨2, none, some "kaaaaaaaaa", 25, 0, TxType.mined⟩ = "+" ∧
    legacyPeer "kaaaaaaaaa" ⟨2, none, some "kaaaaaaaaa", 25, 0, TxType.mined⟩ =
      "N/A(Mined)" := by
  refine ⟨(listtxPeer_precedence "kaaaaaaaaa" ⟨1, none, none, 25, 0, TxType.name_purchase⟩).1
    (by decide), (listtxPeer_precedence "kaaaaaaaaa"
      ⟨2, none, some "kaaaaaaaaa", 25, 0, TxType.mined⟩).2 (by decide), by decide⟩
